import Mathlib

/-!
Shallow embedding of `main.py` of the `v2ray-multi-socks5` repository: a
converter from Shadowsocks credential records to a V2Ray inbound/outbound/
routing configuration.  Labels (Python `str`) are modelled as `List Char`
(Python strings compare and match by code points).  The regex character
class `[A-Za-z\s]` is modelled with the ASCII whitespace characters of
Python's `\s`; `\d` is modelled as the ASCII decimal digits.  Python's
`set` has no specified iteration order, so every function that iterates
`possible_regions` takes an explicit enumeration `ro : List Label` of that
set as a parameter.
-/

/-- A Python string, as its list of code points. -/
abbrev Label := List Char

/-- The ASCII whitespace characters matched by Python's `\s`. -/
def isPySpace (c : Char) : Bool :=
  c = ' ' || c = '\t' || c = '\n' || c = '\r' || c = '\x0b' || c = '\x0c'

/-- A character of the regex class `[A-Za-z\s]` (letters or whitespace). -/
def isLS (c : Char) : Bool :=
  ('A' ≤ c && c ≤ 'Z') || ('a' ≤ c && c ≤ 'z') || isPySpace c

/-- A character of the regex class `\d` (a decimal digit). -/
def isDigitCh (c : Char) : Bool :=
  '0' ≤ c && c ≤ '9'

/-- Python `str.strip()`: remove leading and trailing whitespace. -/
def pyStrip (l : Label) : Label :=
  ((l.dropWhile isPySpace).reverse.dropWhile isPySpace).reverse

/-- Python `pat in s` (substring containment), `main.py` lines 38 and 101. -/
def occursIn (pat : Label) : Label → Bool
  | [] => pat.isEmpty
  | c :: t => pat.isPrefixOf (c :: t) || occursIn pat t

/-- A Shadowsocks record (`main.py`: a JSON object).  `remarks` is `none`
when the `"remarks"` key is absent from the object. -/
structure ServerRecord where
  remarks : Option Label
  server : String
  server_port : Nat
  method : String
  password : String
deriving DecidableEq, Inhabited, Repr

/-- `ss_cfg['remarks']` on a record known to carry the key (buckets built by
the grouper only hold such records). -/
def remarksD (n : ServerRecord) : Label :=
  n.remarks.getD []

/-- `info_keywords`, `main.py` line 34. -/
def info_keywords : List Label :=
  ["最新网址".data, "剩余流量".data, "过期时间".data]

/-- `filter_info_nodes`, `main.py` lines 27–42: keep a record iff it has a
`remarks` key and the label contains none of the `info_keywords`. -/
def filter_info_nodes (ss_configs : List ServerRecord) : List ServerRecord :=
  ss_configs.filter fun cfg =>
    match cfg.remarks with
    | some r => !(info_keywords.any fun k => occursIn k r)
    | none => false

/-- Pattern (a), `main.py` lines 61–66 and 111–114: the regex
`^([A-Za-z\s]+)[\-\d]`.  The classes `[A-Za-z\s]` and `[\-\d]` are
disjoint, so the greedy group is exactly the maximal leading run of
letters/whitespace and the match succeeds iff that run is non-empty and
the character right after it is a hyphen or a digit.  On a match the code
strips the group and accepts it only when longer than one character. -/
def regionPatternA (s : Label) : Option Label :=
  match s.dropWhile isLS with
  | [] => none
  | c :: _ =>
    if (s.takeWhile isLS) ≠ [] ∧ (c = '-' ∨ isDigitCh c) then
      if 1 < (pyStrip (s.takeWhile isLS)).length then
        some (pyStrip (s.takeWhile isLS))
      else none
    else none

/-- One backtracking step of pattern (b) anchored at a position: try group
lengths `g, g-1, …, 1`; length `g` succeeds when the character at index
`g` matches `[-\s]` and the one at `g+1` matches `\d`. -/
def patBGroup (s : Label) : Nat → Option Nat
  | 0 => none
  | g + 1 =>
    match s.drop (g + 1) with
    | sep :: d :: _ =>
      if (sep = '-' ∨ isPySpace sep) ∧ isDigitCh d then some (g + 1)
      else patBGroup s g
    | _ => patBGroup s g

/-- Pattern (b) anchored at the start of `s`: greedy `([A-Za-z\s]+)`
followed by `[-\s]\d+`. -/
def patBAnchored (s : Label) : Option Label :=
  match patBGroup s (s.takeWhile isLS).length with
  | some g => some (s.take g)
  | none => none

/-- `re.search` of pattern (b), `main.py` line 69: leftmost anchor
position wins. -/
def patBSearch : Label → Option Label
  | [] => none
  | c :: t =>
    match patBAnchored (c :: t) with
    | some grp => some grp
    | none => patBSearch t

/-- Pattern (b), `main.py` lines 69–73: on a search hit, strip the group
and accept it only when longer than one character. -/
def regionPatternB (s : Label) : Option Label :=
  match patBSearch s with
  | some grp =>
    let r := pyStrip grp
    if 1 < r.length then some r else none
  | none => none

/-- The region contributed to `possible_regions` by one record
(`main.py` lines 54–73): pattern (a) first (`continue` on acceptance),
then pattern (b); records without a `remarks` key contribute nothing. -/
def regionOf (node : ServerRecord) : Option Label :=
  match node.remarks with
  | none => none
  | some s =>
    match regionPatternA s with
    | some r => some r
    | none => regionPatternB s

/-- `set.add`: membership-based insertion (insertion order is recorded but
carries no meaning; the Python set's iteration order is unspecified). -/
def addRegion (acc : List Label) (r : Label) : List Label :=
  if r ∈ acc then acc else acc ++ [r]

/-- One step of `extract_regions`: add the record's contribution, if any,
to the accumulated set. -/
def extractStep (acc : List Label) (n : ServerRecord) : List Label :=
  match regionOf n with
  | some r => addRegion acc r
  | none => acc

/-- `extract_regions`, `main.py` lines 45–79, as the member list of the
resulting set. -/
def extract_regions (nodes : List ServerRecord) : List Label :=
  nodes.foldl extractStep []

/-- The bucket a record is assigned to and its `starts_with_region` flag
(`main.py` lines 96–121), given an enumeration `ro` of
`possible_regions`: the first region of `ro` occurring in the label wins;
otherwise pattern (a) is retried; otherwise the record goes to `"Other"`. -/
def assignRegion (ro : List Label) (s : Label) : Label × Bool :=
  match ro.find? (fun r => occursIn r s) with
  | some r => (r, r.isPrefixOf s)
  | none =>
    match regionPatternA s with
    | some r => (r, true)
    | none => ("Other".data, false)

/-- `defaultdict(list)` append: buckets appear in first-insertion order
and each bucket keeps insertion order. -/
def bucketAdd (m : List (Label × List (ServerRecord × Bool))) (k : Label)
    (v : ServerRecord × Bool) : List (Label × List (ServerRecord × Bool)) :=
  match m with
  | [] => [(k, [v])]
  | (k', vs) :: rest =>
    if k' = k then (k', vs ++ [v]) :: rest else (k', vs) :: bucketAdd rest k v

/-- `group_nodes_by_region`, `main.py` lines 82–127, with the iteration
order of `possible_regions` made explicit as `ro`.  Records without a
`remarks` key are skipped. -/
def group_nodes_by_region (ro : List Label) (nodes : List ServerRecord) :
    List (Label × List (ServerRecord × Bool)) :=
  nodes.foldl
    (fun m node =>
      match node.remarks with
      | none => m
      | some s =>
        let (k, b) := assignRegion ro s
        bucketAdd m k (node, b))
    []

/-- Python `not x[1]` and the sort key `(not x[1], x[0]["remarks"])` of
`main.py` line 146. -/
def sortKey (x : ServerRecord × Bool) : Bool × Label :=
  (!x.2, remarksD x.1)

/-- Strict order on `Bool`: `False < True`, as in Python. -/
def boolLT : Bool → Bool → Bool
  | false, true => true
  | _, _ => false

/-- Python `≤` on strings: lexicographic by code point. -/
def lexLE : Label → Label → Bool
  | [], _ => true
  | _ :: _, [] => false
  | a :: as, b :: bs =>
    if a.toNat < b.toNat then true
    else if b.toNat < a.toNat then false
    else lexLE as bs

/-- Python `≤` on pairs `(Bool, str)`: lexicographic on components. -/
def keyLE (x y : Bool × Label) : Bool :=
  if x.1 = y.1 then lexLE x.2 y.2 else boolLT x.1 y.1

/-- The sorting relation of `main.py` line 146. -/
def bucketLE (x y : ServerRecord × Bool) : Prop :=
  keyLE (sortKey x) (sortKey y) = true

instance : DecidableRel bucketLE :=
  fun x y => instDecidableEqBool (keyLE (sortKey x) (sortKey y)) true

/-- `sorted(nodes, key=lambda x: (not x[1], x[0]["remarks"]))`.  Python's
`sorted` is a stable sort; a stable sort's output is uniquely determined
by the (total, transitive) key order, and insertion sort is stable. -/
def sortBucket (b : List (ServerRecord × Bool)) : List (ServerRecord × Bool) :=
  List.insertionSort bucketLE b

/-- The per-bucket selection of `select_nodes_from_regions`
(`main.py` lines 141–158): nothing from an empty bucket, the sole entry
of a singleton, else the first and last entries of the sorted bucket. -/
def selectFromBucket (b : List (ServerRecord × Bool)) : List ServerRecord :=
  match sortBucket b with
  | [] => []
  | [x] => [x.1]
  | x :: y :: rest => [x.1, ((y :: rest).getLast (List.cons_ne_nil y rest)).1]

/-- `select_nodes_from_regions`, `main.py` lines 130–160, over the
buckets in iteration order. -/
def select_nodes_from_regions
    (regions : List (Label × List (ServerRecord × Bool))) : List ServerRecord :=
  regions.foldr (fun kv acc => selectFromBucket kv.2 ++ acc) []

/-- Decimal rendering of a port, as in the f-strings of `main.py`. -/
def portChars (p : Nat) : Label :=
  Nat.toDigits 10 p

/-- The inbound tag `f"in-{port}-{ss_cfg['remarks']}"`, `main.py` line 212. -/
def mkInTag (p : Nat) (label : Label) : Label :=
  "in-".data ++ portChars p ++ "-".data ++ label

/-- The outbound tag `f"out-{port}-{ss_cfg['remarks']}"`, `main.py` line 213. -/
def mkOutTag (p : Nat) (label : Label) : Label :=
  "out-".data ++ portChars p ++ "-".data ++ label

/-- An inbound entry, `main.py` lines 216–229. -/
structure Inbound where
  port : Nat
  protocol : String
  settings_auth : String
  settings_udp : Bool
  settings_userLevel : Nat
  tag : Label
  sniffing_enabled : Bool
  sniffing_destOverride : List String
deriving DecidableEq, Inhabited, Repr

/-- The `settings.servers[0]` object of an outbound, `main.py` lines 235–241. -/
structure OutServer where
  address : String
  port : Nat
  method : String
  password : String
  level : Nat
deriving DecidableEq, Inhabited, Repr

/-- An outbound entry, `main.py` lines 232–244 and 367–370; the catch-all
outbound has no `settings` key (`settings = none`). -/
structure Outbound where
  protocol : String
  settings : Option OutServer
  tag : Label
deriving DecidableEq, Inhabited, Repr

/-- A routing rule, `main.py` lines 247–251. -/
structure RoutingRule where
  type : String
  inboundTag : List Label
  outboundTag : Label
deriving DecidableEq, Inhabited, Repr

/-- The output document: `inbounds`, `outbounds`, `routing.rules`,
`routing.domainStrategy`. -/
structure V2Config where
  inbounds : List Inbound
  outbounds : List Outbound
  rules : List RoutingRule
  domainStrategy : String
deriving DecidableEq, Inhabited, Repr

/-- `default_config`, `main.py` lines 173–180. -/
def default_config : V2Config :=
  { inbounds := [], outbounds := [], rules := [], domainStrategy := "IPIfNonMatch" }

/-- The trailing catch-all outbound, `main.py` lines 367–370. -/
def directOutbound : Outbound :=
  { protocol := "freedom", settings := none, tag := "direct".data }

/-- `max(used_ports)` (`used_ports` non-empty). -/
def maxPort : List Nat → Nat
  | [] => 0
  | x :: xs => xs.foldl Nat.max x

/-- `load_or_create_v2ray_config`, `main.py` lines 163–200.  `loaded` is
`some cfg` when `append_mode` holds, the output file exists and parses as
`cfg`; in every other case (including a load exception) the default
template is used and the start port is unchanged. -/
def load_or_create_v2ray_config (loaded : Option V2Config) (start_port : Nat) :
    V2Config × Nat :=
  match loaded with
  | some cfg =>
    let used_ports := cfg.inbounds.map (·.port)
    if used_ports ≠ [] ∧ start_port ≤ maxPort used_ports then
      (cfg, maxPort used_ports + 1)
    else
      (cfg, start_port)
  | none => (default_config, start_port)

/-- `create_v2ray_node_config`, `main.py` lines 203–253. -/
def create_v2ray_node_config (ss_cfg : ServerRecord) (port : Nat) :
    Inbound × Outbound × RoutingRule :=
  let inbound_tag := mkInTag port (remarksD ss_cfg)
  let outbound_tag := mkOutTag port (remarksD ss_cfg)
  ({ port := port
     protocol := "socks"
     settings_auth := "noauth"
     settings_udp := true
     settings_userLevel := 1
     tag := inbound_tag
     sniffing_enabled := true
     sniffing_destOverride := ["http", "tls"] },
   { protocol := "shadowsocks"
     settings := some
       { address := ss_cfg.server
         port := ss_cfg.server_port
         method := ss_cfg.method
         password := ss_cfg.password
         level := 1 }
     tag := outbound_tag },
   { type := "field"
     inboundTag := [inbound_tag]
     outboundTag := outbound_tag })

/-- The generation loop of `main.py` lines 353–364: append one triple per
selected record, incrementing `current_port`. -/
def addNodes (cfg : V2Config) (current_port : Nat) :
    List ServerRecord → V2Config
  | [] => cfg
  | ss_cfg :: rest =>
    let t := create_v2ray_node_config ss_cfg current_port
    addNodes
      { cfg with
        inbounds := cfg.inbounds ++ [t.1]
        outbounds := cfg.outbounds ++ [t.2.1]
        rules := cfg.rules ++ [t.2.2] }
      (current_port + 1) rest

/-- Append the catch-all outbound, `main.py` lines 367–370. -/
def appendDirect (cfg : V2Config) : V2Config :=
  { cfg with outbounds := cfg.outbounds ++ [directOutbound] }

/-- `convert_shadowsocks_to_v2ray`, `main.py` lines 312–381, with the
effectful collaborators made explicit: `loadResult` is the outcome of
`load_shadowsocks_config` (`none` on a missing/unreadable/invalid-JSON
input file), `loaded` the outcome of reading the prior output in append
mode, `ro` the iteration order of the `possible_regions` set, and
`writeOk` the outcome of `write_v2ray_config`.  The first component is
the document committed to disk (`none` when nothing was written
successfully); the second is the returned `(node count, region count)`. -/
def convert_shadowsocks_to_v2ray (loadResult : Option (List ServerRecord))
    (loaded : Option V2Config) (ro : List Label) (start_port : Nat)
    (writeOk : Bool) : Option V2Config × Nat × Nat :=
  match loadResult with
  | none => (none, 0, 0)
  | some ss_configs =>
    let valid_nodes := filter_info_nodes ss_configs
    let regions := group_nodes_by_region ro valid_nodes
    let valid_configs := select_nodes_from_regions regions
    let lc := load_or_create_v2ray_config loaded start_port
    let v2ray_config := appendDirect (addNodes lc.1 lc.2 valid_configs)
    if writeOk then (some v2ray_config, valid_configs.length, regions.length)
    else (none, 0, 0)

/-- Python `str.replace(old, new)`: replace every occurrence, left to
right, non-overlapping; with an empty pattern, insert `new` before every
character and at the end.  The recursion is driven by a fuel argument so
that the function reduces in the kernel; one unit of fuel is spent per
character consumed, so `s.length` fuel always suffices. -/
def replaceAllFuel (old new : Label) : Nat → Label → Label
  | _, [] => if old = [] then new else []
  | 0, s => s
  | fuel + 1, c :: rest =>
    if old = [] then new ++ c :: replaceAllFuel old new fuel rest
    else if old.isPrefixOf (c :: rest) then
      new ++ replaceAllFuel old new fuel ((c :: rest).drop old.length)
    else c :: replaceAllFuel old new fuel rest

/-- Python `str.replace(old, new)` over the whole string. -/
def replaceAll (old new s : Label) : Label :=
  replaceAllFuel old new s.length s

/-- `min(all_ports)` (`all_ports` non-empty). -/
def minPort : List Nat → Nat
  | [] => 0
  | x :: xs => xs.foldl Nat.min x

/-- The port-range string `f"{min_port}-{max_port}:{min_port}-{max_port}"`,
`main.py` line 298. -/
def mkPortMapping (lo hi : Nat) : Label :=
  portChars lo ++ "-".data ++ portChars hi ++ ":".data
    ++ portChars lo ++ "-".data ++ portChars hi

/-- One service of the parsed compose document: its `ports` list. -/
structure ComposeService where
  ports : List Label
deriving DecidableEq, Inhabited, Repr

/-- The parsed compose document: `services` is `none` when the top-level
`services` key is absent, otherwise the service map as an association
list. -/
structure ComposeDoc where
  services : Option (List (String × ComposeService))
deriving DecidableEq, Inhabited, Repr

/-- `update_docker_compose`, `main.py` lines 274–309.  `fileExists` is
`os.path.exists`; `parsed` is the result of `yaml.safe_load` (`none` when
it raises); `content` is the raw file text.  Returns the file text after
the call together with the list of messages printed.  Every branch
returns normally: the body is one `try/except`, so the caller never sees
an exception. -/
def update_docker_compose (fileExists : Bool) (content : Label)
    (parsed : Option ComposeDoc) (v2ray_config : V2Config)
    (start_port : Nat) : Label × List String :=
  if !fileExists then
    (content, ["Warning: Docker Compose file not found, port mappings will not be updated"])
  else
    let all_ports := v2ray_config.inbounds.map (·.port)
    let min_port := if all_ports ≠ [] then minPort all_ports else start_port
    let max_port := if all_ports ≠ [] then maxPort all_ports else start_port
    match parsed with
    | none => (content, ["Error updating Docker Compose file"])
    | some docker_compose =>
      match docker_compose.services with
      | none => (content, [])
      | some svcs =>
        match svcs.lookup "v2ray" with
        | none => (content, [])
        | some svc =>
          match svc.ports with
          | [] => (content, ["Error updating Docker Compose file"])
          | p :: _ =>
            let port_mapping := mkPortMapping min_port max_port
            (replaceAll p port_mapping content,
             ["Updated Docker Compose port mappings"])

/-! ### Order lemmas for the bucket sort relation -/

theorem lexLE_total (a b : Label) : lexLE a b = true ∨ lexLE b a = true := by
  induction a generalizing b with
  | nil => exact Or.inl rfl
  | cons x xs ih =>
    cases b with
    | nil => exact Or.inr rfl
    | cons y ys =>
      simp only [lexLE]
      rcases Nat.lt_trichotomy x.toNat y.toNat with h | h | h
      · left
        simp [h]
      · have h1 : ¬x.toNat < y.toNat := by omega
        have h2 : ¬y.toNat < x.toNat := by omega
        simpa [h1, h2] using ih ys
      · right
        simp [h]

theorem lexLE_trans (a b c : Label) (h1 : lexLE a b = true)
    (h2 : lexLE b c = true) : lexLE a c = true := by
  induction a generalizing b c with
  | nil => rfl
  | cons x xs ih =>
    cases b with
    | nil => simp [lexLE] at h1
    | cons y ys =>
      cases c with
      | nil => simp [lexLE] at h2
      | cons z zs =>
        simp only [lexLE] at h1 h2 ⊢
        rcases Nat.lt_trichotomy x.toNat y.toNat with hxy | hxy | hxy
        · rcases Nat.lt_trichotomy y.toNat z.toNat with hyz | hyz | hyz
          · simp [Nat.lt_trans hxy hyz]
          · simp [hyz ▸ hxy]
          · have hny : ¬y.toNat < z.toNat := by omega
            simp only [if_neg hny, if_pos hyz] at h2
            exact absurd h2 (by simp)
        · rcases Nat.lt_trichotomy y.toNat z.toNat with hyz | hyz | hyz
          · simp [hxy ▸ hyz]
          · have e : x.toNat = z.toNat := by omega
            have hn1 : ¬x.toNat < z.toNat := by omega
            have hn2 : ¬z.toNat < x.toNat := by omega
            have hbn1 : ¬x.toNat < y.toNat := by omega
            have hbn2 : ¬y.toNat < x.toNat := by omega
            have hcn1 : ¬y.toNat < z.toNat := by omega
            have hcn2 : ¬z.toNat < y.toNat := by omega
            simp only [if_neg hbn1, if_neg hbn2] at h1
            simp only [if_neg hcn1, if_neg hcn2] at h2
            simp only [if_neg hn1, if_neg hn2]
            exact ih ys zs h1 h2
          · have hny : ¬y.toNat < z.toNat := by omega
            simp only [if_neg hny, if_pos hyz] at h2
            exact absurd h2 (by simp)
        · have hnx : ¬x.toNat < y.toNat := by omega
          simp only [if_neg hnx, if_pos hxy] at h1
          exact absurd h1 (by simp)

theorem keyLE_total (x y : Bool × Label) : keyLE x y = true ∨ keyLE y x = true := by
  obtain ⟨b1, l1⟩ := x
  obtain ⟨b2, l2⟩ := y
  cases b1 <;> cases b2 <;> simp [keyLE, boolLT] <;> exact lexLE_total l1 l2

theorem keyLE_trans (x y z : Bool × Label) (h1 : keyLE x y = true)
    (h2 : keyLE y z = true) : keyLE x z = true := by
  obtain ⟨b1, l1⟩ := x
  obtain ⟨b2, l2⟩ := y
  obtain ⟨b3, l3⟩ := z
  cases b1 <;> cases b2 <;> cases b3 <;>
    simp_all [keyLE, boolLT] <;> exact lexLE_trans l1 l2 l3 h1 h2

instance : IsTotal (ServerRecord × Bool) bucketLE :=
  ⟨fun a b => keyLE_total (sortKey a) (sortKey b)⟩

instance : IsTrans (ServerRecord × Bool) bucketLE :=
  ⟨fun a b c h1 h2 => keyLE_trans (sortKey a) (sortKey b) (sortKey c) h1 h2⟩

/-! ### Substring and pattern lemmas -/

theorem occursIn_iff (pat s : Label) : occursIn pat s = true ↔ pat <:+: s := by
  induction s with
  | nil =>
    simp only [occursIn, List.isEmpty_iff]
    constructor
    · rintro rfl
      exact List.nil_infix
    · intro h
      exact List.eq_nil_of_infix_nil h
  | cons c t ih =>
    simp only [occursIn, Bool.or_eq_true, List.isPrefixOf_iff_prefix, ih,
      List.infix_cons_iff]

theorem pyStrip_within (l : Label) : pyStrip l <:+: l := by
  unfold pyStrip
  have h1 : l.dropWhile isPySpace <:+ l := List.dropWhile_suffix _
  obtain ⟨u, hu⟩ : (l.dropWhile isPySpace).reverse.dropWhile isPySpace <:+
      (l.dropWhile isPySpace).reverse := List.dropWhile_suffix _
  have h3 : ((l.dropWhile isPySpace).reverse.dropWhile isPySpace).reverse <+:
      l.dropWhile isPySpace :=
    ⟨u.reverse, by rw [← List.reverse_append, hu, List.reverse_reverse]⟩
  exact h3.isInfix.trans h1.isInfix

theorem regionPatternA_within (s r : Label) (h : regionPatternA s = some r) :
    r <:+: s := by
  unfold regionPatternA at h
  split at h
  · simp at h
  · split at h
    · split at h
      · injection h with h
        subst h
        have hp := List.takeWhile_prefix (p := isLS) (l := s)
        exact (pyStrip_within (s.takeWhile isLS)).trans hp.isInfix
      · simp at h
    · simp at h

/-! ### Membership in the extracted region set -/

theorem mem_addRegion_self (acc : List Label) (r : Label) : r ∈ addRegion acc r := by
  unfold addRegion
  split
  · assumption
  · simp

theorem mem_addRegion_of_mem (acc : List Label) (x r : Label) (h : r ∈ acc) :
    r ∈ addRegion acc x := by
  unfold addRegion
  split
  · exact h
  · exact List.mem_append_left _ h

theorem mem_extractStep_of_mem (acc : List Label) (n : ServerRecord) (r : Label)
    (h : r ∈ acc) : r ∈ extractStep acc n := by
  unfold extractStep
  split
  · exact mem_addRegion_of_mem _ _ _ h
  · exact h

theorem mem_foldl_extractStep_of_mem (l : List ServerRecord)
    (acc : List Label) (r : Label) (h : r ∈ acc) :
    r ∈ l.foldl extractStep acc := by
  induction l generalizing acc with
  | nil => exact h
  | cons m rest ih => exact ih _ (mem_extractStep_of_mem _ _ _ h)

theorem mem_foldl_extractStep_of_node (l : List ServerRecord)
    (acc : List Label) (n : ServerRecord) (r : Label) (hmem : n ∈ l)
    (hr : regionOf n = some r) : r ∈ l.foldl extractStep acc := by
  induction l generalizing acc with
  | nil => exact absurd hmem (List.not_mem_nil n)
  | cons m rest ih =>
    rcases List.mem_cons.mp hmem with rfl | hmem'
    · refine mem_foldl_extractStep_of_mem rest _ r ?_
      unfold extractStep
      rw [hr]
      exact mem_addRegion_self acc r
    · exact ih _ hmem'

theorem mem_extract_regions (nodes : List ServerRecord) (n : ServerRecord)
    (r : Label) (hmem : n ∈ nodes) (hr : regionOf n = some r) :
    r ∈ extract_regions nodes :=
  mem_foldl_extractStep_of_node nodes [] n r hmem hr

/-! ### Closed form of the generation loop -/

/-- The triples generated for the selected records, starting at port `p`. -/
def mkTriples (p : Nat) : List ServerRecord → List (Inbound × Outbound × RoutingRule)
  | [] => []
  | n :: rest => create_v2ray_node_config n p :: mkTriples (p + 1) rest

theorem addNodes_eq (cfg : V2Config) (p : Nat) (sel : List ServerRecord) :
    addNodes cfg p sel =
      { cfg with
        inbounds := cfg.inbounds ++ (mkTriples p sel).map (·.1)
        outbounds := cfg.outbounds ++ (mkTriples p sel).map (·.2.1)
        rules := cfg.rules ++ (mkTriples p sel).map (·.2.2) } := by
  induction sel generalizing cfg p with
  | nil => simp [addNodes, mkTriples]
  | cons n rest ih =>
    rw [addNodes, ih]
    simp [mkTriples]

theorem mkTriples_length (sel : List ServerRecord) (p : Nat) :
    (mkTriples p sel).length = sel.length := by
  induction sel generalizing p with
  | nil => rfl
  | cons n rest ih => simp [mkTriples, ih]

theorem mkTriples_getElem? (sel : List ServerRecord) (p i : Nat) :
    (mkTriples p sel)[i]? =
      (sel[i]?).map (fun n => create_v2ray_node_config n (p + i)) := by
  induction sel generalizing p i with
  | nil => simp [mkTriples]
  | cons n rest ih =>
    cases i with
    | zero => simp [mkTriples]
    | succ j =>
      simp only [mkTriples, List.getElem?_cons_succ, ih]
      have : p + 1 + j = p + (j + 1) := by omega
      rw [this]

theorem mkTriples_ports (sel : List ServerRecord) (p : Nat) :
    (mkTriples p sel).map (fun t => t.1.port)
      = (List.range sel.length).map (fun i => p + i) := by
  induction sel generalizing p with
  | nil => simp [mkTriples]
  | cons n rest ih =>
    simp only [mkTriples, List.map_cons, List.length_cons,
      List.range_succ_eq_map, List.map_map]
    refine congrArg₂ List.cons rfl ?_
    rw [ih]
    refine List.map_congr_left fun i _ => ?_
    simp only [Function.comp_apply]
    omega

theorem sortBucket_length (b : List (ServerRecord × Bool)) :
    (sortBucket b).length = b.length :=
  (List.perm_insertionSort bucketLE b).length_eq

/-- C1: `select_nodes_from_regions` sorts each bucket ascending by the key
`(not startsWithRegion, label)` (the sorted bucket is a permutation of the
bucket, sorted for `bucketLE`); a singleton bucket yields its sole entry,
a larger bucket yields exactly the first and the last entry of the sorted
sequence; hence the selected set of a bucket has size `min |bucket| 2`,
i.e. size in `{0,1,2}` with size 2 exactly when the bucket has at least 2
entries. -/
theorem select_nodes_spec (b : List (ServerRecord × Bool)) :
    (sortBucket b).Perm b ∧
    List.Sorted bucketLE (sortBucket b) ∧
    (selectFromBucket b).length = min b.length 2 ∧
    (b.length = 1 → ∃ x, sortBucket b = [x] ∧ selectFromBucket b = [x.1]) ∧
    (2 ≤ b.length → ∃ x y, (sortBucket b).head? = some x ∧
      (sortBucket b).getLast? = some y ∧ selectFromBucket b = [x.1, y.1]) := by
  have hperm : (sortBucket b).Perm b := List.perm_insertionSort bucketLE b
  have hlen : (sortBucket b).length = b.length := hperm.length_eq
  have hsorted : List.Sorted bucketLE (sortBucket b) :=
    List.sorted_insertionSort bucketLE b
  refine ⟨hperm, hsorted, ?_, ?_, ?_⟩
  · rcases hs : sortBucket b with _ | ⟨x, _ | ⟨y, rest⟩⟩ <;>
      rw [hs] at hlen <;> unfold selectFromBucket <;> rw [hs] <;>
      simp only [List.length_nil, List.length_cons, List.length_singleton] at hlen ⊢ <;>
      omega
  · intro h1
    rcases hs : sortBucket b with _ | ⟨x, _ | ⟨y, rest⟩⟩ <;> rw [hs] at hlen <;>
      simp only [List.length_nil, List.length_cons] at hlen
    · omega
    · refine ⟨x, rfl, ?_⟩
      unfold selectFromBucket
      rw [hs]
    · omega
  · intro h2
    rcases hs : sortBucket b with _ | ⟨x, _ | ⟨y, rest⟩⟩ <;> rw [hs] at hlen <;>
      simp only [List.length_nil, List.length_cons] at hlen
    · omega
    · omega
    · refine ⟨x, (y :: rest).getLast (List.cons_ne_nil y rest), rfl, ?_, ?_⟩
      · rw [List.getLast?_cons_cons]
        exact List.getLast?_eq_getLast (y :: rest) (List.cons_ne_nil y rest)
      · unfold selectFromBucket
        rw [hs]

/-! ### C2: order dependence of the grouping -/

/-- Two records whose region extraction yields the set `{AB, CD}`, the
first of which contains both candidate regions in its label. -/
def c2node1 : ServerRecord := ⟨some "AB-CD-1".data, "host1", 1001, "aes", "pw1"⟩

def c2node2 : ServerRecord := ⟨some "CD-1".data, "host2", 1002, "aes", "pw2"⟩

def c2nodes : List ServerRecord := [c2node1, c2node2]

/-- C2: the claim says the grouper iterates the candidate region set in a
deterministic lexicographically sorted order, making two runs on identical
input produce identical output.  The code iterates the raw Python `set`
(`for region in possible_regions`), whose string iteration order varies
across runs under hash randomization, and the result genuinely depends on
that order: for the input `c2nodes` both `[AB, CD]` and its reverse
enumerate the extracted region set, yet they give different groupings and
different selected-node sequences. -/
theorem grouping_depends_on_region_order :
    extract_regions c2nodes = ["AB".data, "CD".data] ∧
    (["CD".data, "AB".data] : List Label) = ["AB".data, "CD".data].reverse ∧
    group_nodes_by_region ["AB".data, "CD".data] c2nodes
      ≠ group_nodes_by_region ["CD".data, "AB".data] c2nodes ∧
    (select_nodes_from_regions
        (group_nodes_by_region ["AB".data, "CD".data] c2nodes)).map remarksD
      ≠ (select_nodes_from_regions
        (group_nodes_by_region ["CD".data, "AB".data] c2nodes)).map remarksD := by
  refine ⟨by decide, by decide, by decide, by decide⟩

/-! ### C4: the info-node filter -/

/-- A record carrying the `remarks` key with an empty label. -/
def emptyLabelRecord : ServerRecord := ⟨some [], "host", 1, "aes", "pw"⟩

/-- C4 (counterexample): the claim says a record is retained only if its
label is non-empty; but `filter_info_nodes` only tests key presence and
marker containment, so a record with an empty label is retained. -/
theorem filter_retains_empty_label :
    ¬ (∀ n : ServerRecord, n ∈ filter_info_nodes [n] →
        ∃ r, n.remarks = some r ∧ r ≠ []) := by
  intro h
  obtain ⟨r, hr, hne⟩ := h emptyLabelRecord (by decide)
  have h0 : emptyLabelRecord.remarks = some ([] : Label) := rfl
  rw [h0] at hr
  exact hne (Option.some.inj hr).symm

/-- C4 (amended): a record is retained iff it carries the `remarks` key
(the label may be empty) and the label contains none of the fixed marker
substrings (case-sensitive substring match); the output is a sublist of
the input (order preserved); in particular any record whose label
contains the marker `最新网址` — such as `最新网址-公告` — is excluded. -/
theorem filter_info_nodes_spec (cfgs : List ServerRecord) :
    List.Sublist (filter_info_nodes cfgs) cfgs ∧
    (∀ n, n ∈ filter_info_nodes cfgs ↔
      n ∈ cfgs ∧ ∃ r, n.remarks = some r ∧
        ∀ k ∈ info_keywords, occursIn k r = false) ∧
    (∀ n r, n.remarks = some r → occursIn "最新网址".data r = true →
      n ∉ filter_info_nodes cfgs) := by
  have hmem : ∀ n, n ∈ filter_info_nodes cfgs ↔
      n ∈ cfgs ∧ ∃ r, n.remarks = some r ∧
        ∀ k ∈ info_keywords, occursIn k r = false := by
    intro n
    unfold filter_info_nodes
    rw [List.mem_filter]
    refine and_congr_right fun _ => ?_
    cases hr : n.remarks with
    | none => simp
    | some r =>
      simp only [Bool.not_eq_true', List.any_eq_false, Option.some.injEq]
      constructor
      · intro hall
        exact ⟨r, rfl, fun k hk => by simpa using hall k hk⟩
      · rintro ⟨r', hr', hall⟩ k hk
        subst hr'
        simpa using hall k hk
  refine ⟨List.filter_sublist _, hmem, ?_⟩
  intro n r hr hocc hmemf
  obtain ⟨-, r', hr', hall⟩ := (hmem n).mp hmemf
  rw [hr] at hr'
  obtain rfl := Option.some.inj hr'
  have := hall "最新网址".data (by decide)
  rw [hocc] at this
  exact Bool.true_eq_false.mp this

/-- C4 (witness): at a concrete input, the record labelled `最新网址-公告`
is dropped by the filter. -/
theorem filter_info_nodes_spec_witness :
    (⟨some "最新网址-公告".data, "h", 1, "m", "p"⟩ : ServerRecord) ∉
      filter_info_nodes
        [⟨some "最新网址-公告".data, "h", 1, "m", "p"⟩,
         ⟨some "HK-01".data, "h", 1, "m", "p"⟩] := by
  have h := (filter_info_nodes_spec
    [⟨some "最新网址-公告".data, "h", 1, "m", "p"⟩,
     ⟨some "HK-01".data, "h", 1, "m", "p"⟩]).2.2
  exact h _ "最新网址-公告".data rfl (by decide)

/-! ### C7: the result signal of a conversion run -/

/-- C7 (counterexample): the claim says `(0, 0)` is returned exactly in
the failure cases.  But a successful run on the empty input list writes
the catch-all-only document and still returns `(0, 0)`. -/
theorem empty_input_returns_zero_zero :
    convert_shadowsocks_to_v2ray (some []) none [] 10001 true
      = (some (appendDirect default_config), 0, 0) ∧
    (some (appendDirect default_config) : Option V2Config) ≠ none :=
  ⟨rfl, by simp⟩

/-- C7 (amended): the run returns `(0, 0)` and commits no document when
the input file fails to load, and likewise when writing the output fails;
otherwise it writes the assembled document and returns the count of
selected nodes and the count of region buckets (which may both be zero on
a successful run with no valid nodes). -/
theorem convert_result_signal (loadResult : Option (List ServerRecord))
    (loaded : Option V2Config) (ro : List Label) (start_port : Nat)
    (writeOk : Bool) :
    (loadResult = none →
      convert_shadowsocks_to_v2ray loadResult loaded ro start_port writeOk
        = (none, 0, 0)) ∧
    (writeOk = false →
      convert_shadowsocks_to_v2ray loadResult loaded ro start_port writeOk
        = (none, 0, 0)) ∧
    (∀ ss, loadResult = some ss → writeOk = true →
      ∃ cfg,
        convert_shadowsocks_to_v2ray loadResult loaded ro start_port writeOk
          = (some cfg,
             (select_nodes_from_regions
               (group_nodes_by_region ro (filter_info_nodes ss))).length,
             (group_nodes_by_region ro (filter_info_nodes ss)).length)) := by
  refine ⟨?_, ?_, ?_⟩
  · rintro rfl
    rfl
  · rintro rfl
    cases loadResult with
    | none => rfl
    | some ss => rfl
  · rintro ss rfl rfl
    exact ⟨_, rfl⟩

/-- C7 (witness): the amended theorem at concrete inputs — a missing
input file yields `(0, 0)` with nothing written, and a successful run on
one record reports one node and one region. -/
theorem convert_result_signal_witness :
    convert_shadowsocks_to_v2ray none none [] 10001 true = (none, 0, 0) ∧
    ∃ cfg, convert_shadowsocks_to_v2ray
        (some [⟨some "HK-01".data, "h", 1, "m", "p"⟩]) none ["HK".data]
        10001 true
      = (some cfg, 1, 1) := by
  constructor
  · exact (convert_result_signal none none [] 10001 true).1 rfl
  · obtain ⟨cfg, hcfg⟩ :=
      (convert_result_signal (some [⟨some "HK-01".data, "h", 1, "m", "p"⟩])
        none ["HK".data] 10001 true).2.2 _ rfl rfl
    refine ⟨cfg, ?_⟩
    rw [hcfg]
    refine congrArg _ ?_
    decide

/-! ### C8 and C10: the docker-compose port-range patcher -/

/-- A parsed compose document with a `services` map lacking the `v2ray`
key. -/
def noV2rayDoc : ComposeDoc := ⟨some [("web", ⟨["80:80".data]⟩)]⟩

/-- C8 (counterexample): the claim says an absent service key gives a
no-op *with a warning*.  The code's `if 'services' in … and 'v2ray' in …`
has no `else` branch, so when the `v2ray` service key is absent the call
is a silent no-op: the file text is unchanged and no message at all is
printed. -/
theorem absent_service_key_silent :
    update_docker_compose true "services: web".data (some noV2rayDoc)
        default_config 10001
      = ("services: web".data, ([] : List String)) := by
  decide

/-- C8 (amended): the patcher computes the min and max of the inbound
ports of the document, formats them as `"{min}-{max}:{min}-{max}"` and
replaces the `v2ray` service's first ports string throughout the file
text; a missing target file is a no-op with a warning; an absent
`services` or `v2ray` key is a silent no-op; a yaml failure is caught and
reported; every branch returns normally, so the patcher never aborts the
run. -/
theorem update_docker_compose_spec (content : Label)
    (parsed : Option ComposeDoc) (cfg : V2Config) (start_port : Nat) :
    (update_docker_compose false content parsed cfg start_port
      = (content,
         ["Warning: Docker Compose file not found, port mappings will not be updated"])) ∧
    (update_docker_compose true content none cfg start_port
      = (content, ["Error updating Docker Compose file"])) ∧
    (∀ dc, parsed = some dc → dc.services = none →
      update_docker_compose true content parsed cfg start_port
        = (content, [])) ∧
    (∀ dc svcs, parsed = some dc → dc.services = some svcs →
      svcs.lookup "v2ray" = none →
      update_docker_compose true content parsed cfg start_port
        = (content, [])) ∧
    (∀ dc svcs svc p ps, parsed = some dc → dc.services = some svcs →
      svcs.lookup "v2ray" = some svc → svc.ports = p :: ps →
      cfg.inbounds ≠ [] →
      update_docker_compose true content parsed cfg start_port
        = (replaceAll p
            (mkPortMapping (minPort (cfg.inbounds.map (·.port)))
              (maxPort (cfg.inbounds.map (·.port)))) content,
           ["Updated Docker Compose port mappings"])) := by
  refine ⟨rfl, rfl, ?_, ?_, ?_⟩
  · rintro dc rfl hs
    unfold update_docker_compose
    simp only [Bool.not_true, Bool.false_eq_true, if_false, hs]
  · rintro dc svcs rfl hs hl
    unfold update_docker_compose
    simp only [Bool.not_true, Bool.false_eq_true, if_false, hs, hl]
  · rintro dc svcs svc p ps rfl hs hl hp hne
    unfold update_docker_compose
    have hmap : cfg.inbounds.map (·.port) ≠ [] := by
      simpa using hne
    simp only [Bool.not_true, Bool.false_eq_true, if_false, hs, hl, hp,
      if_pos hmap]

/-- C8 (witness): the amended theorem at a concrete input — one inbound
on port 10001, ports entry `"1-2:1-2"` — rewrites the text accordingly. -/
theorem update_docker_compose_spec_witness :
    update_docker_compose true "ports: 1-2:1-2".data
        (some ⟨some [("v2ray", ⟨["1-2:1-2".data]⟩)]⟩)
        { default_config with
          inbounds := [⟨10001, "socks", "noauth", true, 1,
            "in-10001-HK".data, true, ["http", "tls"]⟩] }
        10001
      = ("ports: 10001-10001:10001-10001".data,
         ["Updated Docker Compose port mappings"]) := by
  have h := (update_docker_compose_spec "ports: 1-2:1-2".data
    (some ⟨some [("v2ray", ⟨["1-2:1-2".data]⟩)]⟩)
    { default_config with
      inbounds := [⟨10001, "socks", "noauth", true, 1,
        "in-10001-HK".data, true, ["http", "tls"]⟩] }
    10001).2.2.2.2
  rw [h _ _ _ "1-2:1-2".data [] rfl rfl (by decide) rfl (by decide)]
  decide

/-- C10: on the path that rewrites the compose file, the new file text is
a global `str.replace` of the `v2ray` service's first ports string over
the whole raw text — every occurrence anywhere in the file is replaced
with the new port-range string, not only the ports entry of that
service. -/
theorem update_docker_compose_global_replace (content : Label)
    (dc : ComposeDoc) (svcs : List (String × ComposeService))
    (svc : ComposeService) (p : Label) (ps : List Label) (cfg : V2Config)
    (start_port : Nat) (h1 : dc.services = some svcs)
    (h2 : svcs.lookup "v2ray" = some svc) (h3 : svc.ports = p :: ps) :
    ∃ lo hi,
      (update_docker_compose true content (some dc) cfg start_port).1
        = replaceAll p (mkPortMapping lo hi) content := by
  unfold update_docker_compose
  simp only [Bool.not_true, Bool.false_eq_true, if_false, h1, h2, h3]
  by_cases hmap : cfg.inbounds.map (·.port) ≠ []
  · exact ⟨_, _, by rw [if_pos hmap]⟩
  · exact ⟨_, _, by rw [if_neg hmap]⟩

/-- C10 (witness): with the ports string `1-2:1-2` occurring both in the
`v2ray` service and in an unrelated `other` service, the rewrite changes
both occurrences. -/
theorem update_docker_compose_global_replace_witness :
    (∃ lo hi,
      (update_docker_compose true
          "v2ray:\n  ports: 1-2:1-2\nother:\n  ports: 1-2:1-2\n".data
          (some ⟨some [("v2ray", ⟨["1-2:1-2".data]⟩)]⟩)
          { default_config with
            inbounds := [⟨7, "socks", "noauth", true, 1,
              "in-7-HK".data, true, ["http", "tls"]⟩] }
          7).1
        = replaceAll "1-2:1-2".data (mkPortMapping lo hi)
            "v2ray:\n  ports: 1-2:1-2\nother:\n  ports: 1-2:1-2\n".data) ∧
    (update_docker_compose true
        "v2ray:\n  ports: 1-2:1-2\nother:\n  ports: 1-2:1-2\n".data
        (some ⟨some [("v2ray", ⟨["1-2:1-2".data]⟩)]⟩)
        { default_config with
          inbounds := [⟨7, "socks", "noauth", true, 1,
            "in-7-HK".data, true, ["http", "tls"]⟩] }
        7).1
      = "v2ray:\n  ports: 7-7:7-7\nother:\n  ports: 7-7:7-7\n".data := by
  constructor
  · exact update_docker_compose_global_replace
      "v2ray:\n  ports: 1-2:1-2\nother:\n  ports: 1-2:1-2\n".data
      ⟨some [("v2ray", ⟨["1-2:1-2".data]⟩)]⟩
      [("v2ray", ⟨["1-2:1-2".data]⟩)] ⟨["1-2:1-2".data]⟩
      "1-2:1-2".data [] _ 7 rfl (by decide) rfl
  · decide


/-! ### C3: port allocation in append mode -/

theorem load_or_create_some (cfg : V2Config) (start_port : Nat) :
    load_or_create_v2ray_config (some cfg) start_port =
      if cfg.inbounds.map (·.port) ≠ [] ∧
          start_port ≤ maxPort (cfg.inbounds.map (·.port)) then
        (cfg, maxPort (cfg.inbounds.map (·.port)) + 1)
      else (cfg, start_port) := rfl

/-- C3: in append mode with a successfully loaded document, if the
requested start port is at most the maximum port already present in the
document's inbounds, the start port is bumped to that maximum plus one
(otherwise it is kept); the loaded document itself is kept as the base;
and the generation loop then assigns each selected record, in output
order, the next sequential port starting from the (possibly adjusted)
start port — the new inbound ports are exactly
`start', start'+1, …, start'+n-1`, with no gaps and no reuse. -/
theorem port_allocation_spec (cfg : V2Config) (start_port : Nat)
    (sel : List ServerRecord) :
    (cfg.inbounds ≠ [] →
      start_port ≤ maxPort (cfg.inbounds.map (·.port)) →
      (load_or_create_v2ray_config (some cfg) start_port).2
        = maxPort (cfg.inbounds.map (·.port)) + 1) ∧
    (¬(cfg.inbounds ≠ [] ∧ start_port ≤ maxPort (cfg.inbounds.map (·.port))) →
      (load_or_create_v2ray_config (some cfg) start_port).2 = start_port) ∧
    (load_or_create_v2ray_config (some cfg) start_port).1 = cfg ∧
    (addNodes (load_or_create_v2ray_config (some cfg) start_port).1
        (load_or_create_v2ray_config (some cfg) start_port).2
        sel).inbounds.map (·.port)
      = cfg.inbounds.map (·.port)
        ++ (List.range sel.length).map
            (fun i => (load_or_create_v2ray_config (some cfg) start_port).2 + i) := by
  have hcond : (cfg.inbounds.map (·.port) ≠ [] ∧
      start_port ≤ maxPort (cfg.inbounds.map (·.port))) ↔
      (cfg.inbounds ≠ [] ∧
        start_port ≤ maxPort (cfg.inbounds.map (·.port))) := by
    rw [ne_eq, List.map_eq_nil_iff]
  have hbase : (load_or_create_v2ray_config (some cfg) start_port).1 = cfg := by
    rw [load_or_create_some]
    split <;> rfl
  refine ⟨?_, ?_, hbase, ?_⟩
  · intro hne hle
    rw [load_or_create_some, if_pos (hcond.mpr ⟨hne, hle⟩)]
  · intro hn
    rw [load_or_create_some, if_neg (fun hc => hn (hcond.mp hc))]
  · rw [addNodes_eq, hbase]
    simp only [List.map_append, List.map_map]
    refine congrArg _ ?_
    rw [show ((fun x : Inbound => x.port) ∘
        fun t : Inbound × Outbound × RoutingRule => t.1)
        = fun t : Inbound × Outbound × RoutingRule => t.1.port from rfl]
    exact mkTriples_ports sel _

/-- A base document whose five inbounds use ports 10001–10005 (only the
ports matter for the allocation). -/
def c3base : V2Config :=
  { inbounds :=
      (List.range 5).map fun i =>
        ⟨10001 + i, "socks", "noauth", true, 1,
          mkInTag (10001 + i) "HK".data, true, ["http", "tls"]⟩
    outbounds := []
    rules := []
    domainStrategy := "IPIfNonMatch" }

/-- C3 (witness): the spec's own example — a base document using ports
10001–10005 and a requested start port of 10001 with three new nodes
yields the new ports 10006, 10007, 10008 after the 10005-maximum bump. -/
theorem port_allocation_spec_witness :
    (addNodes
        (load_or_create_v2ray_config (some c3base) 10001).1
        (load_or_create_v2ray_config (some c3base) 10001).2
        [⟨some "HK-01".data, "h", 1, "m", "p"⟩,
         ⟨some "JP-01".data, "h", 2, "m", "p"⟩,
         ⟨some "US-01".data, "h", 3, "m", "p"⟩]).inbounds.map (·.port)
      = [10001, 10002, 10003, 10004, 10005, 10006, 10007, 10008] := by
  have h := (port_allocation_spec c3base 10001
    [⟨some "HK-01".data, "h", 1, "m", "p"⟩,
     ⟨some "JP-01".data, "h", 2, "m", "p"⟩,
     ⟨some "US-01".data, "h", 3, "m", "p"⟩]).2.2.2
  rw [h]
  decide

/-! ### C6: labels that are letters/spaces only -/

/-- C6: pattern (a) requires a hyphen or digit after the leading run, so
it never matches a label consisting of letters/spaces only (for instance
a label exactly equal to a region string with no numeric or hyphen
suffix); such a record can still be assigned to a bucket by the grouper's
substring search whenever some candidate region occurs in the label — the
chosen bucket is then a member of the candidate enumeration. -/
theorem letters_only_label_spec (s : Label) (h : ∀ c ∈ s, isLS c = true) :
    regionPatternA s = none ∧
    ∀ ro : List Label, (∃ r ∈ ro, occursIn r s = true) →
      (assignRegion ro s).1 ∈ ro := by
  have hdrop : s.dropWhile isLS = [] :=
    List.dropWhile_eq_nil_iff.mpr (by simpa using h)
  constructor
  · unfold regionPatternA
    rw [hdrop]
  · rintro ro ⟨r, hr, hocc⟩
    have hsome : (ro.find? (fun r => occursIn r s)).isSome :=
      List.find?_isSome.mpr ⟨r, hr, hocc⟩
    obtain ⟨r', hfind⟩ := Option.isSome_iff_exists.mp hsome
    unfold assignRegion
    rw [hfind]
    exact List.mem_of_find?_eq_some hfind

/-- C6 (witness): the all-letters label `Hong Kong` is not matched by
pattern (a), yet with `Hong Kong` in the candidate set the grouper
assigns the record to a candidate bucket. -/
theorem letters_only_label_spec_witness :
    regionPatternA "Hong Kong".data = none ∧
    (assignRegion ["Hong Kong".data] "Hong Kong".data).1
      ∈ ["Hong Kong".data] := by
  have h := letters_only_label_spec "Hong Kong".data (by decide)
  exact ⟨h.1, h.2 ["Hong Kong".data]
    ⟨"Hong Kong".data, by decide, by decide⟩⟩

/-! ### C9: the grouper's fallback re-extraction is unreachable -/

/-- C9: when the candidate enumeration `ro` has the same members as
`extract_regions` of the node list (as in the main pipeline), a record
of that list whose label contains no candidate region as a substring also
fails the grouper's fallback pattern-(a) re-extraction — a pattern-(a)
success would have put that (infix) region into the candidate set, where
the substring search would have found it — so the record is assigned to
the `Other` bucket with `startsWithRegion = false`. -/
theorem fallback_unreachable (nodes : List ServerRecord) (ro : List Label)
    (node : ServerRecord) (s : Label)
    (hro : ∀ r, r ∈ ro ↔ r ∈ extract_regions nodes)
    (hmem : node ∈ nodes) (hs : node.remarks = some s)
    (hnomatch : ∀ r ∈ ro, occursIn r s = false) :
    regionPatternA s = none ∧ assignRegion ro s = ("Other".data, false) := by
  have hA : regionPatternA s = none := by
    cases hA : regionPatternA s with
    | none => rfl
    | some r =>
      have hocc : occursIn r s = true :=
        (occursIn_iff r s).mpr (regionPatternA_within s r hA)
      have hreg : regionOf node = some r := by
        simp only [regionOf, hs, hA]
      have hmemr : r ∈ extract_regions nodes :=
        mem_extract_regions nodes node r hmem hreg
      have hfalse := hnomatch r ((hro r).mpr hmemr)
      rw [hocc] at hfalse
      exact absurd hfalse (by simp)
  have hfind : ro.find? (fun r => occursIn r s) = none :=
    List.find?_eq_none.mpr (fun r hr => by rw [hnomatch r hr]; simp)
  refine ⟨hA, ?_⟩
  unfold assignRegion
  rw [hfind, hA]

/-- C9 (witness): a record whose label has no Latin letters yields no
candidate regions; with the (empty) extracted candidate set it lands in
`Other` with flag `false`, and the fallback fails. -/
theorem fallback_unreachable_witness :
    regionPatternA "中文".data = none ∧
    assignRegion [] "中文".data = ("Other".data, false) := by
  have he : extract_regions [⟨some "中文".data, "h", 1, "m", "p"⟩] = [] := rfl
  exact fallback_unreachable [⟨some "中文".data, "h", 1, "m", "p"⟩] []
    ⟨some "中文".data, "h", 1, "m", "p"⟩ "中文".data
    (fun r => by rw [he]) (by decide) rfl (by simp)

/-! ### C5: the inbound/outbound/rule alignment invariant -/

/-- A run with `loadResult = some ss`, a fresh base (`loaded = none`) and
a successful write commits exactly the assembled document. -/
theorem convert_fresh_eq (ss : List ServerRecord) (ro : List Label)
    (start_port : Nat) :
    (convert_shadowsocks_to_v2ray (some ss) none ro start_port true).1
      = some (appendDirect (addNodes default_config start_port
          (select_nodes_from_regions
            (group_nodes_by_region ro (filter_info_nodes ss))))) := rfl

/-- The claimed positional invariant: each inbound is paired with the
outbound and routing rule at the same index through the derived tag
scheme `in-{port}-{label}` / `out-{port}-{label}`. -/
def tagAligned (cfg : V2Config) : Prop :=
  ∀ (i : Nat) (inb : Inbound), cfg.inbounds[i]? = some inb →
    ∃ outb rule L,
      cfg.outbounds[i]? = some outb ∧ cfg.rules[i]? = some rule ∧
      inb.tag = mkInTag inb.port L ∧ outb.tag = mkOutTag inb.port L ∧
      rule.inboundTag = [inb.tag] ∧ rule.outboundTag = outb.tag ∧
      rule.type = "field"

/-- The document committed by a first (non-append) run on the single
record `HK-01` with start port 10001. -/
def c5prior : V2Config :=
  appendDirect (addNodes default_config 10001
    [⟨some "HK-01".data, "h", 1, "m", "p"⟩])

/-- The document committed by a second run, in append mode on top of
`c5prior`, adding the single record `JP-02` (the start port is bumped
from 10001 to 10002 by the collision rule). -/
def c5second : V2Config :=
  appendDirect (addNodes c5prior 10002
    [⟨some "JP-02".data, "h", 2, "m", "p"⟩])

/-- C5 (counterexample): the first run commits `c5prior`; appending a
second run on top of it commits `c5second`, whose index-1 outbound is the
*base document's trailing catch-all* rather than the partner of the
index-1 inbound: the positional tag-scheme invariant fails for documents
produced in append mode. -/
theorem append_run_breaks_alignment :
    (convert_shadowsocks_to_v2ray
        (some [⟨some "HK-01".data, "h", 1, "m", "p"⟩]) none
        ["HK".data] 10001 true).1 = some c5prior ∧
    (convert_shadowsocks_to_v2ray
        (some [⟨some "JP-02".data, "h", 2, "m", "p"⟩]) (some c5prior)
        ["JP".data] 10001 true).1 = some c5second ∧
    ¬ tagAligned c5second := by
  refine ⟨rfl, rfl, ?_⟩
  intro h
  obtain ⟨outb, rule, L, ho, -, -, hot, -, -, -⟩ :=
    h 1 ⟨10002, "socks", "noauth", true, 1, "in-10002-JP-02".data, true,
      ["http", "tls"]⟩ (by decide)
  have hob : c5second.outbounds[1]? = some directOutbound := by decide
  rw [hob] at ho
  obtain rfl := Option.some.inj ho
  have hot2 : ('d' :: "irect".data : Label)
      = 'o' :: 'u' :: 't' :: '-' :: '1' :: '0' :: '0' :: '0' :: '2' :: '-' :: L :=
    hot
  injection hot2 with h1 _
  exact absurd h1 (by decide)

/-- C5 (amended): every document committed by a run from the fresh
template (non-append mode) satisfies the invariant: `inbounds[i]`,
`outbounds[i]` and `rules[i]` are produced together and share the derived
tag scheme, the trailing catch-all outbound `direct` is the last element
of `outbounds`, and it has no paired inbound or rule because `outbounds`
has exactly one more element than `inbounds` and `rules`.  (In append
mode the base document's own trailing catch-all shifts the outbound
indices, breaking the positional pairing — see the counterexample.) -/
theorem fresh_run_alignment (ss : List ServerRecord) (ro : List Label)
    (start_port : Nat) (cfg : V2Config)
    (hrun : (convert_shadowsocks_to_v2ray (some ss) none ro start_port true).1
      = some cfg) :
    tagAligned cfg ∧
    cfg.outbounds.getLast? = some directOutbound ∧
    cfg.outbounds.length = cfg.inbounds.length + 1 ∧
    cfg.rules.length = cfg.inbounds.length := by
  rw [convert_fresh_eq] at hrun
  obtain rfl := (Option.some.inj hrun).symm
  rw [addNodes_eq]
  simp only [appendDirect, default_config, List.nil_append]
  refine ⟨?_, List.getLast?_concat _, ?_, ?_⟩
  · intro i inb hi
    simp only [List.getElem?_map, mkTriples_getElem?, Option.map_map] at hi
    cases hseli : (select_nodes_from_regions
        (group_nodes_by_region ro (filter_info_nodes ss)))[i]? with
    | none =>
      rw [hseli] at hi
      exact absurd hi (by simp)
    | some n =>
      rw [hseli] at hi
      obtain rfl := (Option.some.inj hi).symm
      have hlt : i < (select_nodes_from_regions
          (group_nodes_by_region ro (filter_info_nodes ss))).length := by
        by_contra hc
        rw [List.getElem?_eq_none (by omega)] at hseli
        exact absurd hseli (by simp)
      refine ⟨(create_v2ray_node_config n (start_port + i)).2.1,
        (create_v2ray_node_config n (start_port + i)).2.2, remarksD n,
        ?_, ?_, rfl, rfl, rfl, rfl, rfl⟩
      · rw [List.getElem?_append_left
          (by rw [List.length_map, mkTriples_length]; exact hlt)]
        simp only [List.getElem?_map, mkTriples_getElem?, Option.map_map, hseli]
        rfl
      · simp only [List.getElem?_map, mkTriples_getElem?, Option.map_map, hseli]
        rfl
  · simp [mkTriples_length]
  · simp [mkTriples_length]

/-- C5 (witness): the amended invariant at a concrete fresh run — the
single-record run that commits `c5prior`. -/
theorem fresh_run_alignment_witness :
    tagAligned c5prior ∧ c5prior.outbounds.getLast? = some directOutbound := by
  have h := fresh_run_alignment [⟨some "HK-01".data, "h", 1, "m", "p"⟩]
    ["HK".data] 10001 c5prior rfl
  exact ⟨h.1, h.2.1⟩

/-! ### C1 witness -/

/-- A three-entry bucket: two labels starting with the region (flag
`true`) and one not. -/
def c1bucket : List (ServerRecord × Bool) :=
  [(⟨some "HK-02".data, "h2", 2, "m", "p"⟩, true),
   (⟨some "ZZ".data, "h3", 3, "m", "p"⟩, false),
   (⟨some "HK-01".data, "h1", 1, "m", "p"⟩, true)]

/-- C1 (witness): on `c1bucket` the sort puts the flagged entries first,
ties broken by label, and the selection takes the first (`HK-01`) and the
last (`ZZ`) entry of the sorted sequence. -/
theorem select_nodes_spec_witness :
    selectFromBucket c1bucket
      = [⟨some "HK-01".data, "h1", 1, "m", "p"⟩,
         ⟨some "ZZ".data, "h3", 3, "m", "p"⟩] := by
  obtain ⟨x, y, hx, hy, hsel⟩ := (select_nodes_spec c1bucket).2.2.2.2 (by decide)
  rw [hsel]
  have hx2 : (sortBucket c1bucket).head?
      = some (⟨some "HK-01".data, "h1", 1, "m", "p"⟩, true) := by decide
  have hy2 : (sortBucket c1bucket).getLast?
      = some (⟨some "ZZ".data, "h3", 3, "m", "p"⟩, false) := by decide
  rw [hx2] at hx
  rw [hy2] at hy
  obtain rfl := Option.some.inj hx
  obtain rfl := Option.some.inj hy
  rfl
